import Mathlib

/-!
Verification of the fuzzy entity resolver and response orchestrator of the
`sales_agent` repository (src/tools/car_search.py, src/agent/kavak_agent.py,
src/config.py).  Python strings are embedded as `List Char`; the rapidfuzz
similarity scores (floats in `[0, 100]`) are embedded as exact rationals.
-/

set_option maxRecDepth 8000

/-- Python strings are modelled as lists of unicode characters. -/
abbrev Text := List Char

/-- Coerce a Lean string literal into the `Text` embedding. -/
def txt (s : String) : Text := s.data

/-- Python `str.lower` restricted to the alphabet appearing in this code base:
ASCII letters plus the Latin accented letters used by the Spanish texts. -/
def pyLower (c : Char) : Char :=
  if 'A' ≤ c ∧ c ≤ 'Z' then Char.ofNat (c.toNat + 32)
  else if c = 'Á' then 'á'
  else if c = 'É' then 'é'
  else if c = 'Í' then 'í'
  else if c = 'Ó' then 'ó'
  else if c = 'Ú' then 'ú'
  else if c = 'Ñ' then 'ñ'
  else if c = 'Ü' then 'ü'
  else if c = 'Ë' then 'ë'
  else if c = 'Â' then 'â'
  else if c = 'Ã' then 'ã'
  else if c = 'Š' then 'š'
  else if c = 'Ÿ' then 'ÿ'
  else c

/-- The whitespace class of Python `str.strip` / `\s` (ASCII part). -/
def pySpace (c : Char) : Bool :=
  c = ' ' ∨ c = '\t' ∨ c = '\n' ∨ c = '\r' ∨ c = '\x0b' ∨ c = '\x0c'

/-- Python regex `\w` over the modelled alphabet: ASCII alphanumerics, the
underscore, and unicode letters (here: the Latin accented letters of the
Spanish texts).  Python 3's `re` is unicode-aware, so accented letters are
word characters. -/
def isWordChar (c : Char) : Bool :=
  c.isAlphanum || c = '_' ||
    c ∈ ['á', 'é', 'í', 'ó', 'ú', 'ñ', 'ü', 'ë', 'Á', 'É', 'Í', 'Ó', 'Ú', 'Ñ', 'Ü', 'Ë']

/-- Python `str.strip()`: drop leading and trailing whitespace. -/
def pyStrip (t : Text) : Text :=
  ((t.dropWhile pySpace).reverse.dropWhile pySpace).reverse

/-- Embedding of `_normalize_text` (car_search.py:198-204):
`text.lower().strip()` then `re.sub(r"[^\w\s]", "", text)`. -/
def pyNormalize (t : Text) : Text :=
  (pyStrip (t.map pyLower)).filter (fun c => isWordChar c || pySpace c)

/-- Embedding of `_normalize_text` on a possibly-absent argument: the
`isinstance` guard maps a non-string (`None`) input to the empty string. -/
def pyNormalizeOpt (t : Option Text) : Text :=
  match t with
  | none => []
  | some s => pyNormalize s

/-- The `brand_typos` table of `_correct_common_typos` (car_search.py:255-267).
All patterns are anchored `^...$` regexes, i.e. whole-string matches. -/
def brandTypos : List (Text × Text) :=
  [ (txt "nisan", txt "nissan")
  , (txt "toyoya", txt "toyota")
  , (txt "vw", txt "volkswagen")
  , (txt "vwv", txt "volkswagen")
  , (txt "volks", txt "volkswagen")
  , (txt "chevy", txt "chevrolet")
  , (txt "cheverolet", txt "chevrolet")
  , (txt "mazada", txt "mazda")
  , (txt "mitsubitshi", txt "mitsubishi")
  , (txt "mercedez", txt "mercedes")
  , (txt "bmw", txt "bmw") ]

/-- The `model_typos` table (car_search.py:270-281).  Each pattern is
`stem.*` used with `re.match`, i.e. a prefix match on the stem. -/
def modelTypos : List (Text × Text) :=
  [ (txt "civic", txt "civic")
  , (txt "sentra", txt "sentra")
  , (txt "corolla", txt "corolla")
  , (txt "jetta", txt "jetta")
  , (txt "golf", txt "golf")
  , (txt "versa", txt "versa")
  , (txt "march", txt "march")
  , (txt "tsuru", txt "tsuru")
  , (txt "aveo", txt "aveo")
  , (txt "spark", txt "spark") ]

/-- Embedding of `_correct_common_typos` (car_search.py:245-295): lower-case,
apply at most one whole-string brand rewrite (first match wins), then return
the first prefix-matching model stem, else the (possibly brand-rewritten)
text unchanged.  Empty input passes through as the empty string. -/
def correctCommonTypos (t : Text) : Text :=
  if t.isEmpty then []
  else
    let low := t.map pyLower
    let afterBrand :=
      match brandTypos.find? (fun p => p.1 == low) with
      | some p => p.2
      | none => low
    match modelTypos.find? (fun p => p.1.isPrefixOf afterBrand) with
    | some p => p.2
    | none => afterBrand

/-- Fuel-bounded longest-common-subsequence length; with fuel at least the
sum of the lengths the fuel is never exhausted. -/
def lcsFuel : Nat → Text → Text → Nat
  | 0, _, _ => 0
  | _ + 1, [], _ => 0
  | _ + 1, _ :: _, [] => 0
  | f + 1, a :: as, b :: bs =>
      if a = b then 1 + lcsFuel f as bs
      else max (lcsFuel f (a :: as) bs) (lcsFuel f as (b :: bs))

/-- Longest-common-subsequence length of two texts. -/
def lcsLen (a b : Text) : Nat := lcsFuel (a.length + b.length) a b

/-- Python `str.split()`: split on whitespace runs, dropping empty pieces. -/
def splitWs : Text → Text → List Text
  | [], acc => if acc.isEmpty then [] else [acc.reverse]
  | c :: cs, acc =>
      if pySpace c then
        if acc.isEmpty then splitWs cs [] else acc.reverse :: splitWs cs []
      else splitWs cs (c :: acc)

/-- Lexicographic comparison on code points, as Python compares strings. -/
def lexLe : Text → Text → Bool
  | [], _ => true
  | _ :: _, [] => false
  | a :: as, b :: bs => if a = b then lexLe as bs else decide (a < b)

/-- Stable insertion into a lexicographically sorted list of tokens. -/
def insertTok (x : Text) : List Text → List Text
  | [] => [x]
  | y :: ys => if lexLe x y then x :: y :: ys else y :: insertTok x ys

/-- Stable ascending sort, as Python `sorted` on strings. -/
def sortLex : List Text → List Text
  | [] => []
  | x :: xs => insertTok x (sortLex xs)

/-- The token-sort preprocessing of rapidfuzz `fuzz.token_sort_ratio`
(external collaborator, modelled from its documented behaviour): split on
whitespace, sort the tokens, re-join with single spaces. -/
def sortTokens (t : Text) : Text :=
  List.intercalate (txt " ") (sortLex (splitWs t []))

/-- Normalized indel similarity of rapidfuzz (`ratio` on an insert/delete
metric): `100 * 2 * lcs / (|a| + |b|)`, with the empty/empty case scored
100 as rapidfuzz does. -/
def indelRatio (a b : Text) : ℚ :=
  if a.length + b.length = 0 then 100
  else mkRat (200 * lcsLen a b) (a.length + b.length)

/-- rapidfuzz `fuzz.token_sort_ratio`: indel ratio of the token-sorted texts. -/
def tokenSortRatio (a b : Text) : ℚ :=
  indelRatio (sortTokens a) (sortTokens b)

/-- The insert/delete edit distance induced by the LCS, the metric
underlying `indelRatio`. -/
def indelDist (a b : Text) : Nat :=
  a.length + b.length - 2 * lcsLen a b

/-- One step of the dict comprehension `{_normalize_text(c): c for c in
choices}` of `_get_best_match` (car_search.py:218): an existing key keeps its
position but its value is overwritten, a new key is appended. -/
def insertNorm (acc : List (Text × Text)) (c : Text) : List (Text × Text) :=
  let k := pyNormalize c
  if acc.any (fun p => p.1 == k) then
    acc.map (fun p => if p.1 == k then (p.1, c) else p)
  else acc ++ [(k, c)]

/-- Left fold of `insertNorm` over the choices. -/
def buildNormMapAux (acc : List (Text × Text)) : List Text → List (Text × Text)
  | [] => acc
  | c :: cs => buildNormMapAux (insertNorm acc c) cs

/-- The normalized-choice dictionary of `_get_best_match` (car_search.py:218). -/
def buildNormMap (choices : List Text) : List (Text × Text) :=
  buildNormMapAux [] choices

/-- Dictionary lookup on the association list. -/
def lookupMap (m : List (Text × Text)) (k : Text) : Option Text :=
  (m.find? (fun p => p.1 == k)).map Prod.snd

/-- The scan of `rapidfuzz.process.extractOne`, carrying the best candidate
seen so far; a strictly greater score replaces it, so the first of equally
scored candidates wins. -/
def argBestAux (q : Text) (best : Text × ℚ) : List Text → Text × ℚ
  | [] => best
  | k :: ks =>
      let s := tokenSortRatio q k
      if best.2 < s then argBestAux q (k, s) ks else argBestAux q best ks

/-- `rapidfuzz.process.extractOne` before the cutoff test: the best-scoring
candidate, the first one winning ties; `none` only on an empty candidate
list. -/
def argBest (q : Text) (keys : List Text) : Option (Text × ℚ) :=
  match keys with
  | [] => none
  | k :: ks => some (argBestAux q (k, tokenSortRatio q k) ks)

/-- Embedding of `_get_best_match` (car_search.py:207-242): guard on empty
query/choices, exact match on the normalized forms short-circuits with score
100, otherwise `process.extractOne` with `fuzz.token_sort_ratio` and
`score_cutoff = threshold`, mapping the winning normalized key back to the
original choice. -/
def getBestMatch (query : Text) (choices : List Text) (threshold : ℚ) :
    Option (Text × ℚ) :=
  if query.isEmpty || choices.isEmpty then none
  else
    let m := buildNormMap choices
    let nq := pyNormalize query
    match lookupMap m nq with
    | some orig => some (orig, 100)
    | none =>
        match argBest nq (m.map Prod.fst) with
        | none => none
        | some (k, s) =>
            if threshold ≤ s then
              match lookupMap m k with
              | some orig => some (orig, s)
              | none => none
            else none

/-- A catalog row (§3 of the spec; the columns used by the resolver). -/
structure CatalogEntry where
  make : Text
  model : Text
  year : Nat
  price : Nat
deriving DecidableEq

/-- pandas `Series.unique().tolist()`: distinct values in order of first
appearance. -/
def uniqueList (l : List Text) : List Text :=
  l.foldl (fun acc x => if acc.contains x then acc else acc ++ [x]) []

/-- The model half of `search_with_fuzzy_matching` (car_search.py:340-353):
runs only when the (corrected, normalized) model string is truthy and the
brand-filtered frame is non-empty; no match empties the result. -/
def modelStep (dfF : List CatalogEntry) (model : Option Text) : List CatalogEntry :=
  match model with
  | none => dfF
  | some m =>
      if m.isEmpty || dfF.isEmpty then dfF
      else
        match getBestMatch m (uniqueList (dfF.map (·.model))) 75 with
        | some (mm, _) => dfF.filter (fun e => e.model == mm)
        | none => []

/-- Python truthiness of an optional string argument after the
normalize/typo-correct reassignment (car_search.py:316-323): `None` and the
empty string are falsy and skip the corresponding filter step. -/
def resolveArg (o : Option Text) : Option Text :=
  match o with
  | none => none
  | some t =>
      if t.isEmpty then none
      else some (correctCommonTypos (pyNormalize t))

/-- Embedding of `search_with_fuzzy_matching` (car_search.py:298-356):
empty frame returned as-is; otherwise the brand is normalized, typo-corrected
and fuzzy-matched against the distinct makes (no match empties the result,
a match filters the frame to that make), then the model is resolved the same
way against the distinct models of the already-filtered frame. -/
def searchWithFuzzyMatching (df : List CatalogEntry)
    (brand model : Option Text) : List CatalogEntry :=
  if df.isEmpty then df
  else
    match resolveArg brand with
    | none => modelStep df (resolveArg model)
    | some b =>
        if b.isEmpty then modelStep df (resolveArg model)
        else
          match getBestMatch b (uniqueList (df.map (·.make))) 75 with
          | some (mb, _) => modelStep (df.filter (fun e => e.make == mb)) (resolveArg model)
          | none => []

/-- Modelled from the spec: the catalog data file
(`data/sample_caso_ai_engineer.csv`) is not part of the sources under
verification, so the loaded catalog is modelled from the concrete entries the
specification names (Toyota Corolla; Nissan Versa, which exists only under
Nissan; Nissan Sentra). -/
def sampleCatalog : List CatalogEntry :=
  [ ⟨txt "Toyota", txt "Corolla", 2020, 285000⟩
  , ⟨txt "Nissan", txt "Versa", 2019, 215000⟩
  , ⟨txt "Nissan", txt "Sentra", 2021, 325000⟩ ]

/-- `MEXICAN_CONFIG["emojis"].values()` (config.py:119-128). -/
def mexicanEmojis : List Char := ['🚗', '💰', '📱', '😊', '✅', '❌', '🤔', '🔍']

/-- `settings.RESPONSE_MAX_LENGTH` (config.py:80, default 1500). -/
def RESPONSE_MAX_LENGTH : Nat := 1500

/-- The fixed continuation prompt appended by `_optimize_for_whatsapp`
(kavak_agent.py:226), transcribed code point for code point from the source
file, which stores this literal double-encoded (mojibake): 44 characters,
none of which is a configured emoji. -/
def contSuffix : Text := txt "...\n\nÂ¿Te interesa saber mÃ¡s detalles? ðŸ˜Š"

/-- `SPANISH_ERROR_RESPONSES["empty_response"]` (config.py:138). -/
def emptyResponseMsg : Text :=
  txt "No recibí una respuesta del agente. Por favor, intenta de nuevo en un momento. 🔄"

/-- Python `not s or not s.strip()`: the string is empty or whitespace-only. -/
def isBlank (t : Text) : Bool := t.all pySpace

/-- The `any(emoji in response ...)` check of `_optimize_for_whatsapp`
(kavak_agent.py:230). -/
def hasAnyEmoji (r : Text) : Bool := mexicanEmojis.any (fun e => r.contains e)

/-- Python substring test `w in s`: `w` occurs contiguously in `s`. -/
def isSubstring (w : Text) : Text → Bool
  | [] => w.isEmpty
  | c :: cs => w.isPrefixOf (c :: cs) || isSubstring w cs

/-- `any(word in response.lower() for word in ws)`. -/
def containsAnyWord (low : Text) (ws : List Text) : Bool :=
  ws.any (fun w => isSubstring w low)

/-- Embedding of `_add_contextual_emoji` (kavak_agent.py:235-248).  The
third vehicle keyword is transcribed from the source file's mojibake literal
(Ã followed by a soft hyphen); the emoji values come from the cleanly
encoded config.py. -/
def addContextualEmoji (r : Text) : Text :=
  let low := r.map pyLower
  if containsAnyWord low [txt "auto", txt "carro", txt "vehÃ\u00ADculo"] then
    txt "🚗 " ++ r
  else if containsAnyWord low [txt "precio", txt "pago", txt "financiamiento"] then
    txt "💰 " ++ r
  else if containsAnyWord low [txt "buscar", txt "encontrar"] then
    txt "🔍 " ++ r
  else
    txt "😊 " ++ r

/-- Embedding of `_optimize_for_whatsapp` (kavak_agent.py:215-233): texts
longer than `RESPONSE_MAX_LENGTH` are cut at `RESPONSE_MAX_LENGTH - 50`
characters and the continuation prompt is appended; then a contextual emoji
is prepended when none of the configured emojis occurs in the text. -/
def optimizeForWhatsapp (response : Text) : Text :=
  let r :=
    if RESPONSE_MAX_LENGTH < response.length then
      response.take (RESPONSE_MAX_LENGTH - 50) ++ contSuffix
    else response
  if hasAnyEmoji r then r else addContextualEmoji r

/-- The first canned fallback template of `_get_fallback_response`
(kavak_agent.py:256): the literal text is transcribed from the source file's
mojibake encoding, while the interpolated emoji values come from the cleanly
encoded config.py. -/
def fallbackGreeting : Text :=
  txt "Â¡Hola! Soy tu agente de Kavak 🚗\n\nTe puedo ayudar con:\nâ€¢ Encontrar tu auto ideal\nâ€¢ Calcular financiamiento 💰\nâ€¢ Info sobre garantÃ\u00ADas\nâ€¢ Agendar cita de prueba\n\nÂ¿QuÃ© necesitas?"

/-- The second canned fallback template (kavak_agent.py:257), mojibake
transcribed as in `fallbackGreeting`. -/
def fallbackApology : Text :=
  txt "Disculpa, tuve un problemita tÃ©cnico 🤔\n\nÂ¿Me puedes decir quÃ© tipo de auto buscas? Te ayudo a encontrar las mejores opciones en Kavak."

/-- The third canned fallback template (kavak_agent.py:258), mojibake
transcribed as in `fallbackGreeting`. -/
def fallbackBudget : Text :=
  txt "Â¡Perfecto! Estoy aquÃ\u00AD para ayudarte a encontrar tu auto ideal 🚗\n\nÂ¿CuÃ¡l es tu presupuesto aproximado?"

/-- Embedding of `_get_fallback_response` (kavak_agent.py:250-267): keyword
selection over the lower-cased original message. -/
def getFallbackResponse (message : Text) : Text :=
  let low := message.map pyLower
  if containsAnyWord low [txt "hola", txt "hello", txt "hi"] then fallbackGreeting
  else if containsAnyWord low [txt "error", txt "problema"] then fallbackApology
  else fallbackBudget

/-- One processing pass of `process_message`, abstracting the two network
calls: either some step of the `try` block raises, or the agent executor
returns `output` together with the flag that `get_kavak_info` was called and
observed empty (kavak_agent.py:127-139), in which case an empty `output` is
replaced by the direct LLM call whose content is `directOutput`. -/
inductive AgentOutcome where
  | success (output : Text) (ragEmpty : Bool) (directOutput : Text)
  | exception
deriving DecidableEq

/-- Embedding of `KavakSalesAgent.process_message` (kavak_agent.py:90-197)
as a function of the inbound message and the outcome of the model calls. -/
def processMessage (message : Text) (o : AgentOutcome) : Text :=
  match o with
  | .exception => getFallbackResponse message
  | .success output ragEmpty directOutput =>
      let finalOutput :=
        if ragEmpty && isBlank output then directOutput else output
      if isBlank finalOutput then emptyResponseMsg
      else optimizeForWhatsapp finalOutput

/-- Fuel-bounded Levenshtein (insert/delete/substitute) edit distance; with
fuel at least the sum of the lengths the fuel is never exhausted.  This is
the "edit-distance" metric the spec quantifies over. -/
def levFuel : Nat → Text → Text → Nat
  | 0, a, b => a.length + b.length
  | _ + 1, [], b => b.length
  | _ + 1, a :: as, [] => (a :: as).length
  | f + 1, a :: as, b :: bs =>
      if a = b then levFuel f as bs
      else 1 + min (levFuel f as bs)
            (min (levFuel f (a :: as) bs) (levFuel f as (b :: bs)))

/-- Levenshtein edit distance of two texts. -/
def levDist (a b : Text) : Nat := levFuel (a.length + b.length) a b

/-- Modelled from the spec: the truncation rule of §4.6 steps 1-2, which the
implementation is claimed to follow — cut at the last sentence boundary
(last period) inside the window of the first `maxLength - 50` characters,
hard-truncate at the window only when no period occurs in it, then append
the fixed continuation prompt.  Stated only to compare against the
implementation. -/
def specTruncate (t : Text) : Text :=
  if t.length ≤ RESPONSE_MAX_LENGTH then t
  else
    let window := t.take (RESPONSE_MAX_LENGTH - 50)
    if '.' ∈ window then
      (window.reverse.dropWhile (fun c => c ≠ '.')).reverse ++ contSuffix
    else window ++ contSuffix

/-! ### Sanity checks of the embedding against the repository's own unit tests -/

example : pyNormalize (txt "Toyota-Corolla 2023!") = txt "toyotacorolla 2023" := by decide
example : pyNormalize (txt "  Honda   Civic  ") = txt "honda   civic" := by decide
example : pyNormalize (txt "N/A") = txt "na" := by decide
example : correctCommonTypos (txt "nisan") = txt "nissan" := by decide
example : correctCommonTypos (txt "civic lx") = txt "civic" := by decide
example : correctCommonTypos (txt "sentra 2020") = txt "sentra" := by decide
example : correctCommonTypos (txt "toyota") = txt "toyota" := by decide
example : lcsLen (txt "versa") (txt "corolla") = 2 := by decide
example : tokenSortRatio (txt "nisan") (txt "nissan") = mkRat 1000 11 := by decide
example : (75 : ℚ) ≤ tokenSortRatio (txt "nisan") (txt "nissan") := by decide
example : ¬ (75 : ℚ) ≤ tokenSortRatio (txt "nizzan") (txt "nissan") := by decide
example : getBestMatch (txt "Toyota Corolla")
    [txt "Toyota Corolla", txt "Honda Civic", txt "Nissan Versa"] 75 =
    some (txt "Toyota Corolla", 100) := by decide
example : getBestMatch (txt "Ferrari")
    [txt "Toyota Corolla", txt "Honda Civic"] 75 = none := by decide
example : (getBestMatch (txt "Toyta Corola")
    [txt "Toyota Corolla", txt "Honda Civic", txt "Nissan Versa",
     txt "Volkswagen Jetta"] 75).map Prod.fst = some (txt "Toyota Corolla") := by decide
example : searchWithFuzzyMatching sampleCatalog
    (some (txt "Toyota")) (some (txt "Corolla")) =
    [⟨txt "Toyota", txt "Corolla", 2020, 285000⟩] := by decide
example : searchWithFuzzyMatching sampleCatalog
    (some (txt "Nisan")) (some (txt "Versa")) =
    [⟨txt "Nissan", txt "Versa", 2019, 215000⟩] := by decide
example : searchWithFuzzyMatching sampleCatalog
    (some (txt "Toyota")) (some (txt "Versa")) = [] := by decide
example : searchWithFuzzyMatching sampleCatalog
    (some (txt "Ferrari")) none = [] := by decide
example : searchWithFuzzyMatching sampleCatalog
    (some (txt "Toyot")) (some (txt "Corola")) =
    [⟨txt "Toyota", txt "Corolla", 2020, 285000⟩] := by decide
example : processMessage (txt "hola") .exception = fallbackGreeting := by decide
example : processMessage (txt "tengo un problema") .exception = fallbackApology := by decide
example : processMessage (txt "quiero un auto") .exception = fallbackBudget := by decide
example : processMessage (txt "hola") (.success [] false []) = emptyResponseMsg := by decide
example : processMessage (txt "x") (.success (txt "Tenemos un auto para ti") false []) =
    txt "🚗 Tenemos un auto para ti" := by decide
example : processMessage (txt "x") (.success [] true (txt "Respuesta directa")) =
    txt "😊 Respuesta directa" := by decide
example : levDist (txt "nisan") (txt "nissan") = 1 := by decide
example : levDist (txt "Nizzan") (txt "Nissan") = 2 := by decide

/-! ### Helper lemmas about the fuzzy matcher -/

theorem lcsFuel_le_left : ∀ (f : Nat) (a b : Text), lcsFuel f a b ≤ a.length := by
  intro f
  induction f with
  | zero => intro a b; simp [lcsFuel]
  | succ f ih =>
      intro a b
      match a, b with
      | [], _ => simp [lcsFuel]
      | _ :: _, [] => simp [lcsFuel]
      | x :: xs, y :: ys =>
          simp only [lcsFuel, List.length_cons]
          split
          · have := ih xs ys
            omega
          · exact max_le (ih (x :: xs) ys) ((ih xs (y :: ys)).trans (Nat.le_succ _))

theorem lcsFuel_le_right : ∀ (f : Nat) (a b : Text), lcsFuel f a b ≤ b.length := by
  intro f
  induction f with
  | zero => intro a b; simp [lcsFuel]
  | succ f ih =>
      intro a b
      match a, b with
      | [], _ => simp [lcsFuel]
      | _ :: _, [] => simp [lcsFuel]
      | x :: xs, y :: ys =>
          simp only [lcsFuel, List.length_cons]
          split
          · have := ih xs ys
            omega
          · exact max_le ((ih (x :: xs) ys).trans (Nat.le_succ _)) (ih xs (y :: ys))

theorem two_lcsLen_le (a b : Text) : 2 * lcsLen a b ≤ a.length + b.length := by
  have h1 := lcsFuel_le_left (a.length + b.length) a b
  have h2 := lcsFuel_le_right (a.length + b.length) a b
  simp only [lcsLen]
  omega

theorem mkRat_le_of_nat (n d c : Nat) (hd : d ≠ 0) (h : n ≤ c * d) :
    mkRat (n : Int) d ≤ (c : ℚ) := by
  rw [Rat.mkRat_eq_div]
  have hd' : (0 : ℚ) < d := by positivity
  rw [div_le_iff₀ hd']
  exact_mod_cast h

theorem nat_le_mkRat (n d c : Nat) (hd : d ≠ 0) (h : c * d ≤ n) :
    (c : ℚ) ≤ mkRat (n : Int) d := by
  rw [Rat.mkRat_eq_div]
  have hd' : (0 : ℚ) < d := by positivity
  rw [le_div_iff₀ hd']
  exact_mod_cast h

theorem indelRatio_le_100 (a b : Text) : indelRatio a b ≤ 100 := by
  unfold indelRatio
  split
  · exact le_refl _
  · rename_i h
    have hle := two_lcsLen_le a b
    have : (200 * lcsLen a b : Int) = ((200 * lcsLen a b : Nat) : Int) := by push_cast; ring
    rw [this]
    exact mkRat_le_of_nat _ _ 100 h (by omega)

theorem tokenSortRatio_le_100 (a b : Text) : tokenSortRatio a b ≤ 100 := by
  unfold tokenSortRatio
  exact indelRatio_le_100 _ _

theorem seventyfive_le_indelRatio (a b : Text)
    (h : 4 * indelDist a b ≤ a.length + b.length) :
    (75 : ℚ) ≤ indelRatio a b := by
  unfold indelRatio
  split
  · norm_num
  · rename_i hne
    have hle := two_lcsLen_le a b
    unfold indelDist at h
    have h75 : (75 : Nat) * (a.length + b.length) ≤ 200 * lcsLen a b := by omega
    have : (200 * lcsLen a b : Int) = ((200 * lcsLen a b : Nat) : Int) := by push_cast; ring
    rw [this]
    exact_mod_cast nat_le_mkRat _ _ 75 hne h75

theorem argBestAux_mem (q : Text) :
    ∀ (ks : List Text) (best : Text × ℚ),
      (argBestAux q best ks).1 = best.1 ∨ (argBestAux q best ks).1 ∈ ks := by
  intro ks
  induction ks with
  | nil => intro best; left; rfl
  | cons k ks ih =>
      intro best
      simp only [argBestAux]
      split
      · rcases ih (k, tokenSortRatio q k) with h | h
        · right; simp [h]
        · right; exact List.mem_cons_of_mem _ h
      · rcases ih best with h | h
        · left; exact h
        · right; exact List.mem_cons_of_mem _ h

theorem argBestAux_score (q : Text) :
    ∀ (ks : List Text) (best : Text × ℚ),
      best.2 = tokenSortRatio q best.1 →
      (argBestAux q best ks).2 = tokenSortRatio q (argBestAux q best ks).1 := by
  intro ks
  induction ks with
  | nil => intro best h; exact h
  | cons k ks ih =>
      intro best h
      simp only [argBestAux]
      split
      · exact ih (k, tokenSortRatio q k) rfl
      · exact ih best h

theorem argBestAux_ge_best (q : Text) :
    ∀ (ks : List Text) (best : Text × ℚ), best.2 ≤ (argBestAux q best ks).2 := by
  intro ks
  induction ks with
  | nil => intro best; exact le_refl _
  | cons k ks ih =>
      intro best
      simp only [argBestAux]
      split
      · rename_i hlt
        exact le_of_lt (lt_of_lt_of_le hlt (ih (k, tokenSortRatio q k)))
      · exact ih best

theorem argBestAux_ge_all (q : Text) :
    ∀ (ks : List Text) (best : Text × ℚ) (k' : Text), k' ∈ ks →
      tokenSortRatio q k' ≤ (argBestAux q best ks).2 := by
  intro ks
  induction ks with
  | nil => intro best k' h; exact absurd h (List.not_mem_nil _)
  | cons k ks ih =>
      intro best k' h
      rcases List.mem_cons.1 h with rfl | h
      · simp only [argBestAux]
        split
        · exact argBestAux_ge_best q ks (k', tokenSortRatio q k')
        · rename_i hnlt
          exact le_trans (le_of_not_lt hnlt) (argBestAux_ge_best q ks best)
      · simp only [argBestAux]
        split
        · exact ih (k, tokenSortRatio q k) k' h
        · exact ih best k' h

theorem argBest_mem_and_score (q : Text) (keys : List Text) (k : Text) (s : ℚ)
    (h : argBest q keys = some (k, s)) :
    k ∈ keys ∧ s = tokenSortRatio q k := by
  match keys with
  | [] => simp [argBest] at h
  | k0 :: ks =>
      simp only [argBest, Option.some.injEq] at h
      constructor
      · rcases argBestAux_mem q ks (k0, tokenSortRatio q k0) with hm | hm
        · rw [h] at hm; simp only at hm; rw [hm]; exact List.mem_cons_self _ _
        · rw [h] at hm; exact List.mem_cons_of_mem _ hm
      · have := argBestAux_score q ks (k0, tokenSortRatio q k0) rfl
        rw [h] at this
        exact this

theorem argBest_ge_all (q : Text) (keys : List Text) (k : Text) (s : ℚ)
    (h : argBest q keys = some (k, s)) :
    ∀ k' ∈ keys, tokenSortRatio q k' ≤ s := by
  match keys with
  | [] => simp [argBest] at h
  | k0 :: ks =>
      simp only [argBest, Option.some.injEq] at h
      intro k' hk'
      rcases List.mem_cons.1 hk' with rfl | hk'
      · have := argBestAux_ge_best q ks (k', tokenSortRatio q k')
        rw [h] at this
        exact this
      · have := argBestAux_ge_all q ks (k0, tokenSortRatio q k0) k' hk'
        rw [h] at this
        exact this

theorem argBest_isSome (q : Text) (keys : List Text) (h : keys ≠ []) :
    ∃ r, argBest q keys = some r := by
  match keys with
  | [] => exact absurd rfl h
  | k0 :: ks => exact ⟨_, rfl⟩

theorem insertNorm_snd (acc : List (Text × Text)) (c : Text) (p : Text × Text)
    (hp : p ∈ insertNorm acc c) : p.2 = c ∨ ∃ p0 ∈ acc, p.2 = p0.2 := by
  simp only [insertNorm] at hp
  split at hp
  · rcases List.mem_map.1 hp with ⟨p0, hp0, heq⟩
    by_cases hk : (p0.1 == pyNormalize c) = true
    · rw [hk] at heq
      simp only [if_true] at heq
      left; rw [← heq]
    · rw [Bool.not_eq_true] at hk
      rw [hk] at heq
      simp only [Bool.false_eq_true, if_false] at heq
      right; exact ⟨p0, hp0, by rw [← heq]⟩
  · rcases List.mem_append.1 hp with h | h
    · right; exact ⟨p, h, rfl⟩
    · left
      have : p = (pyNormalize c, c) := by simpa using h
      rw [this]

theorem insertNorm_fst_old (acc : List (Text × Text)) (c : Text) (k : Text)
    (h : ∃ p ∈ acc, p.1 = k) : ∃ p ∈ insertNorm acc c, p.1 = k := by
  rcases h with ⟨p, hp, hk⟩
  simp only [insertNorm]
  split
  · by_cases hsp : (p.1 == pyNormalize c) = true
    · exact ⟨(p.1, c), List.mem_map.2 ⟨p, hp, by simp [hsp]⟩, hk⟩
    · rw [Bool.not_eq_true] at hsp
      exact ⟨p, List.mem_map.2 ⟨p, hp, by simp [hsp]⟩, hk⟩
  · exact ⟨p, List.mem_append.2 (Or.inl hp), hk⟩

theorem insertNorm_fst_new (acc : List (Text × Text)) (c : Text) :
    ∃ p ∈ insertNorm acc c, p.1 = pyNormalize c := by
  simp only [insertNorm]
  split
  · rename_i hany
    rcases List.any_eq_true.1 hany with ⟨p, hp, hkp⟩
    refine ⟨(p.1, c), List.mem_map.2 ⟨p, hp, by simp [hkp]⟩, by simpa using hkp⟩
  · exact ⟨(pyNormalize c, c), List.mem_append.2 (Or.inr (by simp)), rfl⟩

theorem buildNormMapAux_snd (P : Text → Prop) :
    ∀ (cs : List Text) (acc : List (Text × Text)),
      (∀ p ∈ acc, P p.2) → (∀ c ∈ cs, P c) →
      ∀ p ∈ buildNormMapAux acc cs, P p.2 := by
  intro cs
  induction cs with
  | nil => intro acc hacc _ p hp; exact hacc p hp
  | cons c cs ih =>
      intro acc hacc hcs p hp
      refine ih (insertNorm acc c) ?_ (fun c' hc' => hcs c' (List.mem_cons_of_mem _ hc')) p hp
      intro p0 hp0
      rcases insertNorm_snd acc c p0 hp0 with h | ⟨p1, hp1, h⟩
      · rw [h]; exact hcs c (List.mem_cons_self _ _)
      · rw [h]; exact hacc p1 hp1

theorem buildNormMapAux_fst :
    ∀ (cs : List Text) (acc : List (Text × Text)) (k : Text),
      ((∃ p ∈ acc, p.1 = k) ∨ ∃ c ∈ cs, pyNormalize c = k) →
      ∃ p ∈ buildNormMapAux acc cs, p.1 = k := by
  intro cs
  induction cs with
  | nil =>
      intro acc k h
      rcases h with h | ⟨c, hc, _⟩
      · exact h
      · exact absurd hc (List.not_mem_nil _)
  | cons c cs ih =>
      intro acc k h
      rcases h with h | ⟨c', hc', hk⟩
      · exact ih (insertNorm acc c) k (Or.inl (insertNorm_fst_old acc c k h))
      · rcases List.mem_cons.1 hc' with rfl | hc'
        · exact ih (insertNorm acc c') k (Or.inl (hk ▸ insertNorm_fst_new acc c'))
        · exact ih (insertNorm acc c) k (Or.inr ⟨c', hc', hk⟩)

theorem buildNormMap_snd_mem (choices : List Text) (p : Text × Text)
    (hp : p ∈ buildNormMap choices) : p.2 ∈ choices := by
  exact buildNormMapAux_snd (· ∈ choices) choices []
    (by intro p0 hp0; exact absurd hp0 (List.not_mem_nil _))
    (fun c hc => hc) p hp

theorem buildNormMap_fst_of_mem (choices : List Text) (b : Text)
    (hb : b ∈ choices) : ∃ p ∈ buildNormMap choices, p.1 = pyNormalize b := by
  exact buildNormMapAux_fst choices [] (pyNormalize b)
    (Or.inr ⟨b, hb, rfl⟩)

theorem lookupMap_some_mem (m : List (Text × Text)) (k : Text) (v : Text)
    (h : lookupMap m k = some v) : ∃ p ∈ m, p.1 = k ∧ p.2 = v := by
  unfold lookupMap at h
  rcases Option.map_eq_some'.1 h with ⟨p, hfind, hv⟩
  refine ⟨p, List.mem_of_find?_eq_some hfind, ?_, hv⟩
  have := List.find?_some hfind
  simpa using this

theorem lookupMap_isSome (m : List (Text × Text)) (k : Text)
    (h : ∃ p ∈ m, p.1 = k) : ∃ v, lookupMap m k = some v := by
  rcases h with ⟨p, hp, hk⟩
  have : (List.find? (fun p => p.1 == k) m).isSome := by
    rw [List.find?_isSome]
    exact ⟨p, hp, by simpa using hk⟩
  rcases Option.isSome_iff_exists.1 this with ⟨p', hp'⟩
  exact ⟨p'.2, by unfold lookupMap; rw [hp']; rfl⟩

theorem getBestMatch_empty_query (cs : List Text) (th : ℚ) :
    getBestMatch [] cs th = none := by
  simp [getBestMatch]

/-! ### Claim theorems about the fuzzy matcher -/

/-- C9: for every candidate list, `_get_best_match` with an empty query
returns `None`, and for every query it returns `None` on an empty candidate
list; both are immediate guard-clause returns of a total function, so no
exception can be raised. -/
theorem best_match_empty_guards (q : Text) (cs : List Text) (th : ℚ) :
    getBestMatch [] cs th = none ∧ getBestMatch q [] th = none := by
  constructor
  · simp [getBestMatch]
  · simp [getBestMatch]

/-- C10 (corrected): whenever `_get_best_match` returns `(candidate, score)`,
the candidate is an element of the supplied (un-normalized) choice list and
`threshold ≤ score ≤ 100` holds provided the threshold is a percentage
(`threshold ≤ 100`); the exact-match short-circuit (the normalized query
being a key of the normalized-choice dictionary) always scores exactly
100. -/
theorem best_match_result_sound (q : Text) (cs : List Text) (th : ℚ)
    (c : Text) (s : ℚ) (hth : th ≤ 100)
    (h : getBestMatch q cs th = some (c, s)) :
    c ∈ cs ∧ th ≤ s ∧ s ≤ 100 ∧
      ((lookupMap (buildNormMap cs) (pyNormalize q)).isSome → s = 100) := by
  by_cases hguard : (q.isEmpty || cs.isEmpty) = true
  · simp only [getBestMatch, hguard, if_true] at h
    exact absurd h (by simp)
  · simp only [getBestMatch, hguard, Bool.false_eq_true, if_false] at h
    rcases hlk : lookupMap (buildNormMap cs) (pyNormalize q) with _ | orig
    · rw [hlk] at h
      dsimp only at h
      rcases hab : argBest (pyNormalize q) ((buildNormMap cs).map Prod.fst)
        with _ | ⟨k, sc⟩
      · rw [hab] at h
        dsimp only at h
        exact absurd h (by simp)
      · rw [hab] at h
        dsimp only at h
        by_cases hcut : th ≤ sc
        · rw [if_pos hcut] at h
          rcases hlk2 : lookupMap (buildNormMap cs) k with _ | orig2
          · rw [hlk2] at h; exact absurd h (by simp)
          · rw [hlk2] at h
            dsimp only at h
            rw [Option.some.injEq, Prod.mk.injEq] at h
            obtain ⟨hc, hs⟩ := h
            have hmem : orig2 ∈ cs := by
              rcases lookupMap_some_mem _ _ _ hlk2 with ⟨p, hp, _, hv⟩
              exact hv ▸ buildNormMap_snd_mem cs p hp
            have hscore := (argBest_mem_and_score _ _ _ _ hab).2
            rw [← hc, ← hs]
            refine ⟨hmem, hcut, ?_, ?_⟩
            · rw [hscore]; exact tokenSortRatio_le_100 _ _
            · intro hsome
              simp only [hlk, Option.isSome_none, Bool.false_eq_true] at hsome
        · rw [if_neg hcut] at h; exact absurd h (by simp)
    · rw [hlk] at h
      dsimp only at h
      rw [Option.some.injEq, Prod.mk.injEq] at h
      obtain ⟨hc, hs⟩ := h
      have hmem : orig ∈ cs := by
        rcases lookupMap_some_mem _ _ _ hlk with ⟨p, hp, _, hv⟩
        exact hv ▸ buildNormMap_snd_mem cs p hp
      rw [← hc, ← hs]
      exact ⟨hmem, hth, le_refl _, fun _ => rfl⟩

/-- C4 (corrected): a non-empty query whose normalized token-sorted form is
within insert/delete distance at most 2 of a candidate brand's normalized
token-sorted form, with the combined length of the two forms at least four
times that distance, is matched by `_get_best_match` at the default
threshold 75: a candidate from the list (the brand itself when it is the
only candidate) is returned with score at least 75. -/
theorem fuzzy_indel_close_match (q b : Text) (cs : List Text)
    (hq : q ≠ []) (hb : b ∈ cs)
    (hd : indelDist (sortTokens (pyNormalize q)) (sortTokens (pyNormalize b)) ≤ 2)
    (hlen : 4 * indelDist (sortTokens (pyNormalize q)) (sortTokens (pyNormalize b)) ≤
      (sortTokens (pyNormalize q)).length + (sortTokens (pyNormalize b)).length) :
    ∃ c s, getBestMatch q cs 75 = some (c, s) ∧ (75 : ℚ) ≤ s ∧ c ∈ cs := by
  have hne : cs ≠ [] := by rintro rfl; exact absurd hb (List.not_mem_nil _)
  have hqe : q.isEmpty = false := by cases q with
    | nil => exact absurd rfl hq
    | cons a as => rfl
  have hce : cs.isEmpty = false := by cases cs with
    | nil => exact absurd rfl hne
    | cons a as => rfl
  have hguard : (q.isEmpty || cs.isEmpty) = false := by rw [hqe, hce]; rfl
  have h75 : (75 : ℚ) ≤ tokenSortRatio (pyNormalize q) (pyNormalize b) :=
    seventyfive_le_indelRatio _ _ hlen
  rcases hlk : lookupMap (buildNormMap cs) (pyNormalize q) with _ | orig
  · have hkey := buildNormMap_fst_of_mem cs b hb
    have hkmem : pyNormalize b ∈ (buildNormMap cs).map Prod.fst := by
      rcases hkey with ⟨p, hp, he⟩
      exact List.mem_map.2 ⟨p, hp, he⟩
    have hkeysne : (buildNormMap cs).map Prod.fst ≠ [] := by
      intro hnil
      rw [hnil] at hkmem
      exact List.not_mem_nil _ hkmem
    rcases argBest_isSome (pyNormalize q) _ hkeysne with ⟨⟨k, s⟩, hab⟩
    have hmemscore := argBest_mem_and_score _ _ _ _ hab
    have hge := argBest_ge_all _ _ _ _ hab (pyNormalize b) hkmem
    have hs75 : (75 : ℚ) ≤ s := le_trans h75 hge
    rcases List.mem_map.1 hmemscore.1 with ⟨p, hp, hpk⟩
    rcases lookupMap_isSome (buildNormMap cs) k ⟨p, hp, hpk⟩ with ⟨v, hlkv⟩
    have hvmem : v ∈ cs := by
      rcases lookupMap_some_mem _ _ _ hlkv with ⟨p', hp', _, hv⟩
      exact hv ▸ buildNormMap_snd_mem cs p' hp'
    refine ⟨v, s, ?_, hs75, hvmem⟩
    simp only [getBestMatch, hguard, Bool.false_eq_true, if_false]
    rw [hlk]
    dsimp only
    rw [hab]
    dsimp only
    rw [if_pos hs75, hlkv]
  · have hvmem : orig ∈ cs := by
      rcases lookupMap_some_mem _ _ _ hlk with ⟨p, hp, _, hv⟩
      exact hv ▸ buildNormMap_snd_mem cs p hp
    refine ⟨orig, 100, ?_, by norm_num, hvmem⟩
    simp only [getBestMatch, hguard, Bool.false_eq_true, if_false]
    rw [hlk]

/-- Witness for `best_match_result_sound`: the exact-match short-circuit on
a concrete call. -/
theorem best_match_result_sound_witness :
    txt "Nissan" ∈ [txt "Nissan", txt "Toyota"] ∧ (75 : ℚ) ≤ 100 ∧ (100 : ℚ) ≤ 100 ∧
      ((lookupMap (buildNormMap [txt "Nissan", txt "Toyota"])
          (pyNormalize (txt "Nissan"))).isSome → (100 : ℚ) = 100) :=
  best_match_result_sound (txt "Nissan") [txt "Nissan", txt "Toyota"] 75
    (txt "Nissan") 100 (by decide) (by decide)

/-- Counterexample to C10 as stated: with a threshold above 100 the
exact-match short-circuit still returns score 100, below the threshold. -/
theorem best_match_threshold_counterexample :
    getBestMatch (txt "Nissan") [txt "Nissan"] 150 = some (txt "Nissan", 100) ∧
      ¬ ((150 : ℚ) ≤ 100) := by decide

/-- Witness for `fuzzy_indel_close_match`: the spec's own example, "nisan"
against the brand "nissan" (indel distance 1), matched at score 1000/11 ≈
90.9. -/
theorem fuzzy_indel_close_match_witness :
    getBestMatch (txt "nisan") [txt "nissan"] 75 =
      some (txt "nissan", mkRat 1000 11) ∧
    (∃ c s, getBestMatch (txt "nisan") [txt "nissan"] 75 = some (c, s) ∧
      (75 : ℚ) ≤ s ∧ c ∈ [txt "nissan"]) :=
  ⟨by decide,
   fuzzy_indel_close_match (txt "nisan") (txt "nissan") [txt "nissan"]
     (by decide) (by decide) (by decide) (by decide)⟩

/-- Counterexample to C4 as stated: "Nizzan" is within Levenshtein edit
distance 2 of the catalog brand "Nissan" (two substitutions), yet
`_get_best_match` at the default threshold 75 returns no match at all,
because the underlying metric is an insert/delete ratio under which the two
substitutions cost 4 of 12 positions (score 200/3 ≈ 66.7 < 75). -/
theorem fuzzy_edit_distance_counterexample :
    levDist (txt "Nizzan") (txt "Nissan") ≤ 2 ∧
      txt "Nissan" ∈ [txt "Toyota", txt "Nissan"] ∧
      getBestMatch (txt "Nizzan") [txt "Toyota", txt "Nissan"] 75 = none := by decide

/-! ### Claim theorems about the entity resolver -/

theorem modelStep_subset (dfF : List CatalogEntry) (model : Option Text)
    (e : CatalogEntry) (he : e ∈ modelStep dfF model) : e ∈ dfF := by
  rcases model with _ | m
  · simpa only [modelStep] using he
  · simp only [modelStep] at he
    split at he
    · exact he
    · rcases hgb : getBestMatch m (uniqueList (dfF.map (·.model))) 75 with _ | ⟨mm, s⟩
      · rw [hgb] at he
        dsimp only at he
        exact absurd he (List.not_mem_nil _)
      · rw [hgb] at he
        dsimp only at he
        exact List.mem_of_mem_filter he

/-- C2: every entry returned by `search_with_fuzzy_matching` when a brand
argument survives normalization carries exactly the make selected by the
brand-match step (model matching only refines the already brand-filtered
subset); in particular, on the spec's example catalog, resolving
brand "Toyota" with model "Versa" — Versa existing only under Nissan —
yields the empty subset and never a cross-brand match. -/
theorem resolver_brand_invariant (df : List CatalogEntry) (b : Text)
    (model : Option Text) (mb : Text) (s : ℚ)
    (h : getBestMatch (correctCommonTypos (pyNormalize b))
          (uniqueList (df.map (·.make))) 75 = some (mb, s)) :
    (∀ e ∈ searchWithFuzzyMatching df (some b) model, e.make = mb) ∧
    searchWithFuzzyMatching sampleCatalog (some (txt "Toyota"))
      (some (txt "Versa")) = [] := by
  constructor
  · intro e he
    unfold searchWithFuzzyMatching at he
    split at he
    · rename_i hempty
      rw [List.isEmpty_iff.1 hempty] at he
      exact absurd he (List.not_mem_nil _)
    · have hbne : b.isEmpty = false := by
        by_contra hne
        rw [Bool.not_eq_false] at hne
        rw [List.isEmpty_iff.1 hne] at h
        have : correctCommonTypos (pyNormalize ([] : Text)) = [] := by decide
        rw [this] at h
        rw [getBestMatch_empty_query (uniqueList (df.map (·.make))) 75] at h
        · exact absurd h (by simp)
      simp only [resolveArg, hbne, Bool.false_eq_true, if_false] at he
      by_cases hce : (correctCommonTypos (pyNormalize b)).isEmpty = true
      · rw [List.isEmpty_iff.1 hce] at h
        rw [getBestMatch_empty_query (uniqueList (df.map (·.make))) 75] at h
        exact absurd h (by simp)
      · rw [Bool.not_eq_true] at hce
        rw [if_neg (by rw [hce]; exact Bool.false_ne_true)] at he
        rw [h] at he
        dsimp only at he
        have hf := modelStep_subset _ _ _ he
        have := List.mem_filter.1 hf
        exact beq_iff_eq.1 this.2
  · decide

/-- Witness for `resolver_brand_invariant`: on the spec's example catalog
the brand step selects Toyota, and the Versa model — present only under
Nissan — produces the empty subset. -/
theorem resolver_brand_invariant_witness :
    getBestMatch (correctCommonTypos (pyNormalize (txt "Toyota")))
      (uniqueList (sampleCatalog.map (·.make))) 75 = some (txt "Toyota", 100) ∧
    searchWithFuzzyMatching sampleCatalog (some (txt "Toyota"))
      (some (txt "Versa")) = [] :=
  ⟨by decide,
   (resolver_brand_invariant sampleCatalog (txt "Toyota") (some (txt "Versa"))
     (txt "Toyota") 100 (by decide)).2⟩

/-- C3: every entry of the (spec-modelled) catalog is recovered by the
resolver when queried with its exact brand and model strings, and the
returned subset is non-empty. -/
theorem resolver_roundtrip_recall :
    ∀ e ∈ sampleCatalog,
      e ∈ searchWithFuzzyMatching sampleCatalog (some e.make) (some e.model) ∧
      searchWithFuzzyMatching sampleCatalog (some e.make) (some e.model) ≠ [] := by
  decide

/-- Witness for `resolver_roundtrip_recall`: the Toyota Corolla entry. -/
theorem resolver_roundtrip_recall_witness :
    (⟨txt "Toyota", txt "Corolla", 2020, 285000⟩ : CatalogEntry) ∈
      searchWithFuzzyMatching sampleCatalog
        (some (txt "Toyota")) (some (txt "Corolla")) ∧
    searchWithFuzzyMatching sampleCatalog
      (some (txt "Toyota")) (some (txt "Corolla")) ≠ [] :=
  resolver_roundtrip_recall ⟨txt "Toyota", txt "Corolla", 2020, 285000⟩ (by decide)

/-! ### Claim theorems about the orchestrator and formatter -/

theorem contains_of_mem (l : Text) (c : Char) (h : c ∈ l) :
    l.contains c = true := by
  simpa using List.elem_iff.2 h

theorem mem_of_contains (l : Text) (c : Char) (h : l.contains c = true) :
    c ∈ l := by
  simpa using List.elem_iff.1 (by simpa using h)

theorem contains_append (a b : Text) (c : Char) :
    (a ++ b).contains c = (a.contains c || b.contains c) := by
  induction a with
  | nil => simp [List.contains]
  | cons x xs ih =>
      rw [List.cons_append, List.contains_cons, List.contains_cons, ih,
        Bool.or_assoc]

theorem any_or_distrib (es : List Char) (p q : Char → Bool) :
    (es.any fun e => p e || q e) = (es.any p || es.any q) := by
  induction es with
  | nil => rfl
  | cons e es ih =>
      simp only [List.any_cons, ih]
      cases p e <;> cases q e <;>
        simp only [Bool.false_or, Bool.true_or, Bool.or_false, Bool.or_true]

theorem any_contains_append (es : List Char) (a b : Text) :
    (es.any fun e => (a ++ b).contains e) =
      ((es.any fun e => a.contains e) || es.any fun e => b.contains e) := by
  simp only [contains_append]
  exact any_or_distrib es _ _

theorem hasAnyEmoji_append (a b : Text) :
    hasAnyEmoji (a ++ b) = (hasAnyEmoji a || hasAnyEmoji b) :=
  any_contains_append mexicanEmojis a b

theorem contSuffix_no_emoji : hasAnyEmoji contSuffix = false := by decide

theorem hasAnyEmoji_replicate (n : Nat) (c : Char)
    (hc : hasAnyEmoji [c] = false) :
    hasAnyEmoji (List.replicate n c) = false := by
  cases hrep : hasAnyEmoji (List.replicate n c)
  · rfl
  · exfalso
    rcases List.any_eq_true.1 hrep with ⟨e, he, hce⟩
    have hmem : e ∈ List.replicate n c := mem_of_contains _ _ hce
    have heq : e = c := (List.mem_replicate.1 hmem).2
    subst heq
    have : hasAnyEmoji [e] = true :=
      List.any_eq_true.2 ⟨e, he, contains_of_mem _ _ (by simp)⟩
    rw [hc] at this
    exact Bool.false_ne_true this

theorem isBlank_append (s t : Text) :
    isBlank (s ++ t) = (isBlank s && isBlank t) := by
  simp [isBlank, List.all_append]

theorem contSuffix_not_blank : isBlank contSuffix = false := by decide

theorem addContextualEmoji_not_blank (r : Text) :
    isBlank (addContextualEmoji r) = false := by
  simp only [addContextualEmoji]
  split
  · rw [isBlank_append, show isBlank (txt "🚗 ") = false from by decide]
    rfl
  · split
    · rw [isBlank_append, show isBlank (txt "💰 ") = false from by decide]
      rfl
    · split
      · rw [isBlank_append, show isBlank (txt "🔍 ") = false from by decide]
        rfl
      · rw [isBlank_append, show isBlank (txt "😊 ") = false from by decide]
        rfl

theorem optimize_long (t : Text) (h : RESPONSE_MAX_LENGTH < t.length) :
    optimizeForWhatsapp t =
      if hasAnyEmoji (t.take (RESPONSE_MAX_LENGTH - 50) ++ contSuffix) then
        t.take (RESPONSE_MAX_LENGTH - 50) ++ contSuffix
      else addContextualEmoji (t.take (RESPONSE_MAX_LENGTH - 50) ++ contSuffix) := by
  simp only [optimizeForWhatsapp]
  rw [if_pos h]

theorem addContextualEmoji_length (r : Text) :
    (addContextualEmoji r).length = r.length + 2 := by
  simp only [addContextualEmoji]
  split
  · rw [List.length_append, show (txt "🚗 ").length = 2 from rfl]
    omega
  · split
    · rw [List.length_append, show (txt "💰 ").length = 2 from rfl]
      omega
    · split
      · rw [List.length_append, show (txt "🔍 ").length = 2 from rfl]
        omega
      · rw [List.length_append, show (txt "😊 ").length = 2 from rfl]
        omega

theorem optimize_not_blank (t : Text) (h : isBlank t = false) :
    isBlank (optimizeForWhatsapp t) = false := by
  by_cases hl : RESPONSE_MAX_LENGTH < t.length
  · rw [optimize_long t hl]
    split
    · rw [isBlank_append, contSuffix_not_blank]
      simp
    · exact addContextualEmoji_not_blank _
  · simp only [optimizeForWhatsapp, if_neg hl]
    split
    · exact h
    · exact addContextualEmoji_not_blank t

/-- C1: for every inbound message and every combination of model-call
outcomes — success, empty final output, empty knowledge retrieval, or an
exception raised inside the try block — `process_message` returns a string
that is neither empty nor whitespace-only. -/
theorem orchestrator_never_blank (msg : Text) (o : AgentOutcome) :
    isBlank (processMessage msg o) = false := by
  rcases o with ⟨output, ragEmpty, directOutput⟩ | _
  · simp only [processMessage]
    by_cases hb :
        isBlank (if ragEmpty && isBlank output then directOutput else output) = true
    · rw [if_pos hb]
      decide
    · rw [if_neg hb]
      rw [Bool.not_eq_true] at hb
      exact optimize_not_blank _ hb
  · simp only [processMessage, getFallbackResponse]
    split
    · decide
    · split
      · decide
      · decide

/-- C6: any text longer than `RESPONSE_MAX_LENGTH` is truncated to at most
`RESPONSE_MAX_LENGTH` characters, on both emoji-injection branches — the
kept 1450 characters plus the 44-character continuation suffix give 1494,
and when the truncated text contains no configured emoji the injected
two-character emoji prefix gives 1496 — and the result is non-empty. -/
theorem formatter_length_bound (t : Text) (h : RESPONSE_MAX_LENGTH < t.length) :
    (optimizeForWhatsapp t).length ≤ RESPONSE_MAX_LENGTH ∧
      optimizeForWhatsapp t ≠ [] := by
  have hs : contSuffix.length = 44 := by decide
  have htl : (t.take (RESPONSE_MAX_LENGTH - 50)).length = RESPONSE_MAX_LENGTH - 50 := by
    rw [List.length_take]
    simp only [RESPONSE_MAX_LENGTH] at h ⊢
    omega
  rw [optimize_long t h]
  split
  · constructor
    · rw [List.length_append, htl, hs]
      simp only [RESPONSE_MAX_LENGTH]
      omega
    · intro hnil
      have := (List.append_eq_nil.1 hnil).2
      exact absurd this (by decide)
  · constructor
    · rw [addContextualEmoji_length, List.length_append, htl, hs]
      simp only [RESPONSE_MAX_LENGTH]
      omega
    · intro hnil
      have hlen0 := congrArg List.length hnil
      rw [addContextualEmoji_length] at hlen0
      simp only [List.length_nil] at hlen0
      omega

/-- Witness for `formatter_length_bound` at a concrete 1501-character text. -/
theorem formatter_length_bound_witness :
    RESPONSE_MAX_LENGTH < (List.replicate 1501 'a').length ∧
    ((optimizeForWhatsapp (List.replicate 1501 'a')).length ≤ RESPONSE_MAX_LENGTH ∧
      optimizeForWhatsapp (List.replicate 1501 'a') ≠ []) :=
  ⟨by simp [RESPONSE_MAX_LENGTH],
   formatter_length_bound _ (by simp [RESPONSE_MAX_LENGTH])⟩

/-- C5 (corrected): the formatter performs no sentence-boundary search — any
text longer than `RESPONSE_MAX_LENGTH` is hard-truncated at exactly
`RESPONSE_MAX_LENGTH - 50` characters regardless of where periods occur, and
the fixed continuation prompt is appended; because that prompt (a mojibake
literal in the source) contains no configured emoji, a contextual emoji is
then prepended exactly when the truncated text itself contains none. -/
theorem formatter_hard_truncation (t : Text) (h : RESPONSE_MAX_LENGTH < t.length) :
    (hasAnyEmoji (t.take (RESPONSE_MAX_LENGTH - 50) ++ contSuffix) = true →
      optimizeForWhatsapp t = t.take (RESPONSE_MAX_LENGTH - 50) ++ contSuffix) ∧
    (hasAnyEmoji (t.take (RESPONSE_MAX_LENGTH - 50) ++ contSuffix) = false →
      optimizeForWhatsapp t =
        addContextualEmoji (t.take (RESPONSE_MAX_LENGTH - 50) ++ contSuffix)) := by
  constructor
  · intro hA
    rw [optimize_long t h, if_pos hA]
  · intro hA
    rw [optimize_long t h, if_neg (by rw [hA]; exact Bool.false_ne_true)]

/-- Witness for `formatter_hard_truncation` at a concrete 1501-character
text starting with the car emoji, which lands in the no-injection branch. -/
theorem formatter_hard_truncation_witness :
    RESPONSE_MAX_LENGTH < ('🚗' :: List.replicate 1500 'b').length ∧
    hasAnyEmoji (('🚗' :: List.replicate 1500 'b').take (RESPONSE_MAX_LENGTH - 50) ++
      contSuffix) = true ∧
    optimizeForWhatsapp ('🚗' :: List.replicate 1500 'b') =
      ('🚗' :: List.replicate 1500 'b').take (RESPONSE_MAX_LENGTH - 50) ++ contSuffix := by
  have hlen : RESPONSE_MAX_LENGTH < ('🚗' :: List.replicate 1500 'b').length := by
    simp [RESPONSE_MAX_LENGTH]
  have hA : hasAnyEmoji (('🚗' :: List.replicate 1500 'b').take
      (RESPONSE_MAX_LENGTH - 50) ++ contSuffix) = true := by
    unfold hasAnyEmoji
    refine List.any_eq_true.2 ⟨'🚗', by decide, contains_of_mem _ _ ?_⟩
    refine List.mem_append.2 (Or.inl ?_)
    rw [show RESPONSE_MAX_LENGTH - 50 = 1449 + 1 from rfl, List.take_succ_cons]
    exact List.mem_cons_self _ _
  exact ⟨hlen, hA, (formatter_hard_truncation _ hlen).1 hA⟩

theorem dropWhile_replicate_append (p : Char → Bool) (n : Nat) (a : Char)
    (l : Text) (hp : p a = true) :
    (List.replicate n a ++ l).dropWhile p = l.dropWhile p := by
  induction n with
  | zero => rfl
  | succ n ih =>
      rw [List.replicate_succ, List.cons_append, List.dropWhile_cons_of_pos hp]
      exact ih

/-- Counterexample to C5 as stated: on a 1503-character text whose only
period sits at index 2, the spec's sentence-boundary rule would keep just
"Hi." plus the suffix, but the implementation keeps the first 1450
characters — it never looks for a period — and then prepends a contextual
emoji, since neither the kept text nor the mojibake suffix contains a
configured emoji. -/
theorem formatter_sentence_boundary_counterexample :
    specTruncate (txt "Hi." ++ List.replicate 1500 'x') =
      txt "Hi." ++ contSuffix ∧
    optimizeForWhatsapp (txt "Hi." ++ List.replicate 1500 'x') =
      addContextualEmoji ((txt "Hi." ++ List.replicate 1447 'x') ++ contSuffix) ∧
    optimizeForWhatsapp (txt "Hi." ++ List.replicate 1500 'x') ≠
      specTruncate (txt "Hi." ++ List.replicate 1500 'x') := by
  have hlen : (txt "Hi." ++ List.replicate 1500 'x').length = 1503 := by
    rw [List.length_append, List.length_replicate]
    rfl
  have htake : (txt "Hi." ++ List.replicate 1500 'x').take 1450 =
      txt "Hi." ++ List.replicate 1447 'x' := by
    rw [List.take_append_eq_append_take,
        List.take_of_length_le (by decide : (txt "Hi.").length ≤ 1450),
        List.take_replicate]
    rfl
  have hnoem : hasAnyEmoji ((txt "Hi." ++ List.replicate 1447 'x') ++ contSuffix) = false := by
    rw [hasAnyEmoji_append, hasAnyEmoji_append,
        show hasAnyEmoji (txt "Hi.") = false from by decide,
        hasAnyEmoji_replicate 1447 'x' (by decide), contSuffix_no_emoji]
    rfl
  have hopt : optimizeForWhatsapp (txt "Hi." ++ List.replicate 1500 'x') =
      addContextualEmoji ((txt "Hi." ++ List.replicate 1447 'x') ++ contSuffix) := by
    rw [optimize_long _ (by rw [hlen]; decide)]
    rw [show RESPONSE_MAX_LENGTH - 50 = 1450 from rfl, htake]
    rw [if_neg (by rw [hnoem]; exact Bool.false_ne_true)]
  have hspec : specTruncate (txt "Hi." ++ List.replicate 1500 'x') =
      txt "Hi." ++ contSuffix := by
    simp only [specTruncate]
    rw [if_neg (by rw [hlen]; decide)]
    rw [show RESPONSE_MAX_LENGTH - 50 = 1450 from rfl, htake]
    rw [if_pos (List.mem_append.2 (Or.inl (by decide)))]
    rw [List.reverse_append, List.reverse_replicate,
        dropWhile_replicate_append _ _ _ _ (by decide)]
    rw [show (txt "Hi.").reverse = txt ".iH" from by decide]
    rw [show (txt ".iH").dropWhile (fun c => decide (c ≠ '.')) = txt ".iH" from by decide]
    rw [show (txt ".iH").reverse = txt "Hi." from by decide]
  refine ⟨hspec, hopt, ?_⟩
  rw [hopt, hspec]
  intro heq
  have hlens := congrArg List.length heq
  rw [addContextualEmoji_length, List.length_append, List.length_append,
      List.length_append, List.length_replicate] at hlens
  omega

/-- C7: evaluation of the normalizer at the failing input of the repository's
own unit test (`test_normalize_text` expects "volkswagen jetta"): Python's
`\w` matches accented letters, so `re.sub(r"[^\w\s]", "", ...)` keeps the
diacritics instead of removing them. -/
theorem normalizer_keeps_diacritics :
    pyNormalize (txt "Volkswagen Jëttá") = txt "volkswagen jëttá" ∧
    txt "volkswagen jëttá" ≠ txt "volkswagen jetta" ∧
    pyNormalizeOpt none = [] ∧ pyNormalize [] = [] := by
  refine ⟨by decide, by decide, rfl, rfl⟩

/-- Counterexample to C8 as stated: with the message "hola" and an empty
final answer reached without an exception, the orchestrator returns the
fixed `empty_response` template, not the keyword-selected greeting template
(nor any other keyword-selected canned fallback). -/
theorem fallback_empty_answer_counterexample :
    processMessage (txt "hola") (.success [] false []) = emptyResponseMsg ∧
    emptyResponseMsg ≠ fallbackGreeting ∧
    emptyResponseMsg ≠ fallbackApology ∧
    emptyResponseMsg ≠ fallbackBudget := by
  refine ⟨by decide, by decide, by decide, by decide⟩

/-- C8 (corrected): the keyword-matched canned Spanish fallback (greeting
word selects the greeting template, error keyword the apology template,
otherwise the ask-for-budget template; the selection is a total function
performing no I/O) is returned exactly when a step raises a hard error,
while an empty or whitespace-only final candidate answer without an
exception yields the fixed `empty_response` template instead. -/
theorem fallback_selection (msg output directOutput : Text) (ragEmpty : Bool) :
    processMessage msg .exception = getFallbackResponse msg ∧
    (containsAnyWord (msg.map pyLower) [txt "hola", txt "hello", txt "hi"] = true →
      getFallbackResponse msg = fallbackGreeting) ∧
    (containsAnyWord (msg.map pyLower) [txt "hola", txt "hello", txt "hi"] = false →
      containsAnyWord (msg.map pyLower) [txt "error", txt "problema"] = true →
      getFallbackResponse msg = fallbackApology) ∧
    (containsAnyWord (msg.map pyLower) [txt "hola", txt "hello", txt "hi"] = false →
      containsAnyWord (msg.map pyLower) [txt "error", txt "problema"] = false →
      getFallbackResponse msg = fallbackBudget) ∧
    (isBlank (if ragEmpty && isBlank output then directOutput else output) = true →
      processMessage msg (.success output ragEmpty directOutput) = emptyResponseMsg) := by
  refine ⟨rfl, ?_, ?_, ?_, ?_⟩
  · intro hg
    simp [getFallbackResponse, hg]
  · intro hg he
    simp [getFallbackResponse, hg, he]
  · intro hg he
    simp [getFallbackResponse, hg, he]
  · intro hb
    simp only [processMessage]
    rw [if_pos hb]

/-- Witness for `fallback_selection`: the greeting keyword "hola" selects
the greeting template on the exception path. -/
theorem fallback_selection_witness :
    processMessage (txt "hola") .exception = getFallbackResponse (txt "hola") ∧
    getFallbackResponse (txt "hola") = fallbackGreeting ∧
    processMessage (txt "hola") (.success [] false []) = emptyResponseMsg :=
  ⟨(fallback_selection (txt "hola") [] [] false).1,
   (fallback_selection (txt "hola") [] [] false).2.1 (by decide),
   (fallback_selection (txt "hola") [] [] false).2.2.2.2 (by decide)⟩
